import Mathlib

/-!
Verification of the version-timeline converter of the vulndb cve5 package.

The repository ships the tests of the converter (TestVersionRangeToVersionRange
and TestToVersions in the cve5 package) but not the converter itself, so the
two core functions, versionsToVersionRanges (the spec's TimelineToRanges) and
toVersions (the spec's RangeToTimeline), are modelled from the specification
and then checked against every concrete test vector of the repository's test
file.

Version strings are embedded as lists of characters so that the small
constraint-expression grammar can be parsed and reasoned about structurally.
-/

/-- Version strings are modelled as lists of characters. -/
abbrev Str := List Char

/-- Coercion from string literals, for concrete inputs. -/
def str (s : String) : Str := s.toList

/-- The kind of a version event: the version was introduced as vulnerable,
or the vulnerability was fixed at that version. -/
inductive EventKind where
  | introduced
  | fixed
deriving DecidableEq, Repr

/-- The other event kind. -/
def EventKind.other : EventKind → EventKind
  | .introduced => .fixed
  | .fixed => .introduced

/-- A chronological version event (the source's report.Version value). -/
structure VersionEvent where
  kind : EventKind
  version : Str
deriving DecidableEq, Repr

/-- The source's report.Introduced constructor. -/
def Introduced (v : Str) : VersionEvent := ⟨.introduced, v⟩

/-- The source's report.Fixed constructor. -/
def Fixed (v : Str) : VersionEvent := ⟨.fixed, v⟩

/-- A version status of the cve5 schema: StatusAffected or StatusUnaffected. -/
inductive VersionStatus where
  | affected
  | unaffected
deriving DecidableEq, Repr

/-- The cve5 VersionRange record: a half-open interval with a status label. -/
structure VersionRange where
  introduced : Str
  fixed : Str
  status : VersionStatus
  versionType : Str
deriving DecidableEq, Repr

/-- The constant version type used by the converter (the source's typeSemver). -/
def typeSemver : Str := ['s', 'e', 'm', 'v', 'e', 'r']

/-- The sentinel genesis version "0", meaning from the beginning of time. -/
def genesis : Str := ['0']

/-- Kind of the last event of a timeline, if any. -/
def lastKind : List VersionEvent → Option EventKind
  | [] => none
  | [e] => some e.kind
  | _ :: e :: rest => lastKind (e :: rest)

/-- Modelled from the spec: Open mode holds exactly when the sequence ends with
an unmatched trailing Introduced event (spec section 4.1 step 2). -/
def isOpenMode (vs : List VersionEvent) : Bool :=
  decide (lastKind vs = some EventKind.introduced)

/-- Modelled from the spec: the pairwise walk of section 4.1 step 3, turning
consecutive events two at a time into ranges with the given status. -/
def pairRanges (st : VersionStatus) : List VersionEvent → List VersionRange
  | e1 :: e2 :: rest =>
      ⟨e1.version, e2.version, st, typeSemver⟩ :: pairRanges st rest
  | _ => []

/-- Modelled from the spec: versionsToVersionRanges (the spec's
TimelineToRanges) of the cve5 package is absent from the sources; only its test
TestVersionRangeToVersionRange is present. This follows spec section 4.1:
empty input returns no ranges and default Affected; otherwise the mode is
derived from the last event's kind, a leading genesis range is synthesized
when the first event's kind does not match the mode's expected start, and
consecutive events are paired into ranges. -/
def versionsToVersionRanges : List VersionEvent → List VersionRange × VersionStatus
  | [] => ([], .affected)
  | e :: rest =>
      if isOpenMode (e :: rest) then
        if e.kind = EventKind.fixed then
          (pairRanges .unaffected (e :: rest), .affected)
        else
          (⟨genesis, e.version, .unaffected, typeSemver⟩ :: pairRanges .unaffected rest,
           .affected)
      else
        if e.kind = EventKind.introduced then
          (pairRanges .affected (e :: rest), .unaffected)
        else
          (⟨genesis, e.version, .affected, typeSemver⟩ :: pairRanges .affected rest,
           .unaffected)

/-- Strip one leading letter v from a version string (spec section 4.2 step 2). -/
def trimV : Str → Str
  | [] => []
  | c :: rest => if c = 'v' then rest else c :: rest

/-- Drop an expected literal from the front of a string, or fail. -/
def dropPre : List Char → Str → Option Str
  | [], s => some s
  | _ :: _, [] => none
  | c :: p, d :: s => if c = d then dropPre p s else none

/-- Split a string at its first comma, returning the parts before and after. -/
def splitAtComma : Str → Option (Str × Str)
  | [] => none
  | c :: rest =>
      if c = ',' then some ([], rest)
      else
        match splitAtComma rest with
        | some (a, b) => some (c :: a, b)
        | none => none

/-- Modelled from the spec: the constraint-expression grammar of section 3 and
the design note of section 9, a dedicated parser for an expression of the
shape with an optional lower bound and a mandatory upper bound, returning the
structured pair of an optional lower bound and the upper bound. -/
def parseConstraint (s : Str) : Option (Option Str × Str) :=
  match dropPre ['>', '=', ' '] s with
  | some rest =>
      match splitAtComma rest with
      | some (a, after) =>
          match dropPre [' ', '<', ' '] after with
          | some b => some (some a, b)
          | none => none
      | none => none
  | none =>
      match dropPre ['<', ' '] s with
      | some b => some (none, b)
      | none => none

/-- Modelled from the spec: toVersions (the spec's RangeToTimeline) of the
cve5 package is absent from the sources; only its test TestToVersions is
present. This follows spec section 4.2: nil or a both-bounds-empty range gives
no events; leading letters v are stripped; a constraint expression in the
introduced field is authoritative; otherwise a plain non-sentinel introduced
version and a non-empty fixed version each yield one event. The assumed
default status does not influence the produced events. -/
def toVersions : Option VersionRange → VersionStatus → List VersionEvent × Bool
  | none, _ => ([], true)
  | some r, _ =>
      if r.introduced = [] ∧ r.fixed = [] then ([], true)
      else
        match parseConstraint (trimV r.introduced) with
        | some (some a, b) => ([Introduced a, Fixed b], true)
        | some (none, b) => ([Fixed b], true)
        | none =>
            ((if trimV r.introduced ≠ [] ∧ trimV r.introduced ≠ genesis
                then [Introduced (trimV r.introduced)] else []) ++
             (if trimV r.fixed ≠ [] then [Fixed (trimV r.fixed)] else []),
             true)

/-- Consecutive disjoint pairs of a list of events. -/
def consecutivePairs : List VersionEvent → List (VersionEvent × VersionEvent)
  | e1 :: e2 :: rest => (e1, e2) :: consecutivePairs rest
  | _ => []

/-- Events alternate in kind starting from the given kind. -/
def alternatesFrom : EventKind → List VersionEvent → Bool
  | _, [] => true
  | k, e :: rest => decide (e.kind = k) && alternatesFrom (EventKind.other k) rest

/-- Events alternate in kind, starting from the first event's own kind. -/
def alternating : List VersionEvent → Bool
  | [] => true
  | e :: rest => alternatesFrom e.kind (e :: rest)

/-- A version string is plain: non-empty, not the genesis sentinel, without a
leading letter v, and not a constraint expression. -/
def noLeadV : Str → Bool
  | [] => true
  | c :: _ => decide (c ≠ 'v')

/-- A plain version for the purposes of the round trip. -/
def plainVersion (v : Str) : Bool :=
  decide (v ≠ []) && decide (v ≠ genesis) && noLeadV v && (parseConstraint v).isNone

/-- All events of a timeline carry plain versions. -/
def allPlain (vs : List VersionEvent) : Bool :=
  vs.all (fun e => plainVersion e.version)

/-- The round trip of the spec's section 8: convert a timeline to ranges and a
default, decode each range with that default, and concatenate in order. -/
def roundTrip (vs : List VersionEvent) : List VersionEvent :=
  (((versionsToVersionRanges vs).1).map
    (fun r => (toVersions (some r) (versionsToVersionRanges vs).2).1)).flatten

/-- Every range has non-empty bounds and the semver version type. -/
def rangesWellFormed (rs : List VersionRange) : Bool :=
  rs.all (fun r =>
    decide (r.introduced ≠ []) && decide (r.fixed ≠ []) &&
      decide (r.versionType = typeSemver))

/-- The model reproduces the test vector named nil of
TestVersionRangeToVersionRange. -/
theorem conf_v2r_nil : versionsToVersionRanges [] = ([], .affected) := by decide

/-- The model reproduces the test vector named basic of
TestVersionRangeToVersionRange. -/
theorem conf_v2r_basic :
    versionsToVersionRanges
      [Introduced (str "1.0.0"), Fixed (str "1.0.1"),
       Introduced (str "1.2.0"), Fixed (str "1.2.3")] =
    ([⟨str "1.0.0", str "1.0.1", .affected, typeSemver⟩,
      ⟨str "1.2.0", str "1.2.3", .affected, typeSemver⟩], .unaffected) := by decide

/-- The model reproduces the test vector named no initial introduced of
TestVersionRangeToVersionRange. -/
theorem conf_v2r_noInitial :
    versionsToVersionRanges
      [Fixed (str "1.0.1"), Introduced (str "1.2.0"), Fixed (str "1.2.3")] =
    ([⟨str "0", str "1.0.1", .affected, typeSemver⟩,
      ⟨str "1.2.0", str "1.2.3", .affected, typeSemver⟩], .unaffected) := by decide

/-- The model reproduces the test vector named no fix of
TestVersionRangeToVersionRange. -/
theorem conf_v2r_noFix :
    versionsToVersionRanges [Introduced (str "1.0.0")] =
    ([⟨str "0", str "1.0.0", .unaffected, typeSemver⟩], .affected) := by decide

/-- The model reproduces the test vector named no final fix of
TestVersionRangeToVersionRange. -/
theorem conf_v2r_noFinalFix :
    versionsToVersionRanges
      [Introduced (str "1.0.0"), Fixed (str "1.0.3"), Introduced (str "1.1.0")] =
    ([⟨str "0", str "1.0.0", .unaffected, typeSemver⟩,
      ⟨str "1.0.3", str "1.1.0", .unaffected, typeSemver⟩], .affected) := by decide

/-- The model reproduces the test vector named no initial introduced and no
final fix of TestVersionRangeToVersionRange. -/
theorem conf_v2r_neither :
    versionsToVersionRanges
      [Fixed (str "1.0.3"), Introduced (str "1.0.5"),
       Fixed (str "1.0.7"), Introduced (str "1.1.0")] =
    ([⟨str "1.0.3", str "1.0.5", .unaffected, typeSemver⟩,
      ⟨str "1.0.7", str "1.1.0", .unaffected, typeSemver⟩], .affected) := by decide

/-- The model reproduces the test vectors named nil and basic of
TestToVersions. -/
theorem conf_tv_nil_basic :
    toVersions none .unaffected = ([], true) ∧
    toVersions (some ⟨str "1.0.0", str "1.0.1", .affected, typeSemver⟩) .unaffected =
      ([Introduced (str "1.0.0"), Fixed (str "1.0.1")], true) := by decide

/-- The model reproduces the test vectors named introduced encodes both
versions and introduced encodes fixed of TestToVersions. -/
theorem conf_tv_expr :
    toVersions (some ⟨str ">= 1.0.0, < 1.0.1", [], .affected, typeSemver⟩) .unaffected =
      ([Introduced (str "1.0.0"), Fixed (str "1.0.1")], true) ∧
    toVersions (some ⟨str "< 1.0.1", [], .affected, typeSemver⟩) .unaffected =
      ([Fixed (str "1.0.1")], true) := by decide

/-- The model reproduces the test vector named v prefix ok of TestToVersions. -/
theorem conf_tv_vStrip :
    toVersions (some ⟨str "v1.0.0", str "v1.0.1", .affected, typeSemver⟩) .unaffected =
      ([Introduced (str "1.0.0"), Fixed (str "1.0.1")], true) := by decide

/-- The pairwise walk equals a map over the consecutive disjoint pairs. -/
theorem pairRanges_eq_map (st : VersionStatus) :
    ∀ l : List VersionEvent,
      pairRanges st l =
        (consecutivePairs l).map
          (fun p => ⟨p.1.version, p.2.version, st, typeSemver⟩)
  | [] => rfl
  | [_] => rfl
  | e1 :: e2 :: rest => by
      simp [pairRanges, consecutivePairs, pairRanges_eq_map st rest]

/-- Stripping the letter v leaves a string without a leading v unchanged. -/
theorem trimV_of_noLeadV (v : Str) (h : noLeadV v = true) : trimV v = v := by
  cases v with
  | nil => rfl
  | cons c rest =>
      simp only [noLeadV, decide_eq_true_eq] at h
      simp [trimV, h]

/-- Unpacking of the plainVersion predicate. -/
theorem plainVersion_spec (v : Str) (h : plainVersion v = true) :
    v ≠ [] ∧ v ≠ genesis ∧ trimV v = v ∧ parseConstraint v = none := by
  simp only [plainVersion, Bool.and_eq_true, decide_eq_true_eq,
    Option.isNone_iff_eq_none] at h
  obtain ⟨⟨⟨h1, h2⟩, h3⟩, h4⟩ := h
  exact ⟨h1, h2, trimV_of_noLeadV v h3, h4⟩

/-- Decoding a range with two plain bounds yields the two matching events. -/
theorem toVersions_plain (a b : Str) (st : VersionStatus) (t : Str) (d : VersionStatus)
    (ha : plainVersion a = true) (hb : plainVersion b = true) :
    toVersions (some ⟨a, b, st, t⟩) d = ([Introduced a, Fixed b], true) := by
  obtain ⟨ha1, ha2, ha3, ha4⟩ := plainVersion_spec a ha
  obtain ⟨hb1, _, hb3, _⟩ := plainVersion_spec b hb
  simp [toVersions, ha1, ha2, ha3, ha4, hb1, hb3]

/-- Decoding a range whose start is the genesis sentinel yields only the
fixed event. -/
theorem toVersions_genesis (b : Str) (st : VersionStatus) (t : Str) (d : VersionStatus)
    (hb : plainVersion b = true) :
    toVersions (some ⟨genesis, b, st, t⟩) d = ([Fixed b], true) := by
  obtain ⟨hb1, _, hb3, _⟩ := plainVersion_spec b hb
  have hg : trimV genesis = genesis := by decide
  have hp : parseConstraint genesis = none := by decide
  have hne : genesis ≠ [] := by decide
  simp [toVersions, hg, hp, hne, hb1, hb3]

/-- Dropping a literal from its own concatenation succeeds. -/
theorem dropPre_append (p s : Str) : dropPre p (p ++ s) = some s := by
  induction p with
  | nil => rfl
  | cons c t ih => simp [dropPre, ih]

/-- Splitting at the first comma after a comma-free part. -/
theorem splitAtComma_append (a rest : Str)
    (h : a.all (fun c => decide (c ≠ ',')) = true) :
    splitAtComma (a ++ ',' :: rest) = some (a, rest) := by
  induction a with
  | nil => simp [splitAtComma]
  | cons c t ih =>
      simp only [List.all_cons, Bool.and_eq_true, decide_eq_true_eq] at h
      simp [splitAtComma, h.1, ih h.2]

/-- Decoding the ranges of a fully paired alternating closed timeline,
concatenated in order, reproduces the timeline. -/
theorem decodePairs_closed (d : VersionStatus) :
    ∀ vs : List VersionEvent, alternatesFrom EventKind.introduced vs = true →
      lastKind vs ≠ some EventKind.introduced → allPlain vs = true →
      ((pairRanges VersionStatus.affected vs).map
        (fun r => (toVersions (some r) d).1)).flatten = vs
  | [], _, _, _ => rfl
  | [e], h1, h2, _ => by
      simp only [alternatesFrom, Bool.and_eq_true, decide_eq_true_eq] at h1
      exact absurd (by simp [lastKind, h1.1]) h2
  | e1 :: e2 :: rest, h1, h2, h3 => by
      simp only [alternatesFrom, Bool.and_eq_true, decide_eq_true_eq,
        EventKind.other] at h1
      obtain ⟨hk1, hk2, hrest⟩ := h1
      simp only [allPlain, List.all_cons, Bool.and_eq_true] at h3
      obtain ⟨hp1, hp2, hrest3⟩ := h3
      have h2' : lastKind rest ≠ some EventKind.introduced := by
        cases rest with
        | nil => simp [lastKind]
        | cons x xs => exact h2
      have hd : (toVersions
          (some ⟨e1.version, e2.version, VersionStatus.affected, typeSemver⟩) d).1 =
          [Introduced e1.version, Fixed e2.version] := by
        rw [toVersions_plain e1.version e2.version _ _ d hp1 hp2]
      have ih := decodePairs_closed d rest hrest h2' hrest3
      obtain ⟨k1, v1⟩ := e1
      obtain ⟨k2, v2⟩ := e2
      simp only at hk1 hk2
      subst hk1
      subst hk2
      simp [pairRanges, hd, Introduced, Fixed, ih]

/-- Claim C1 (counterexample): the full round trip fails on an open timeline.
Feeding the single timeline with one Introduced event through
versionsToVersionRanges and back through toVersions yields a Fixed event
instead of the original Introduced event, so the concatenated decode does not
reproduce the original sequence. -/
theorem roundTrip_open_loses_introduced :
    roundTrip [Introduced (str "1.0.0")] ≠ [Introduced (str "1.0.0")] := by
  decide

/-- Claim C1 (amended): for every event sequence of alternating kinds that is
empty or ends with a Fixed event (Closed mode), all of whose versions are
plain semantic-version strings (non-empty, not the sentinel 0, without a
leading letter v, and not constraint expressions), feeding each range produced
by versionsToVersionRanges, paired with the returned default status, into
toVersions and concatenating the resulting event lists in range order yields
the original event sequence. -/
theorem roundTrip_closed (vs : List VersionEvent)
    (halt : alternating vs = true)
    (hend : lastKind vs ≠ some EventKind.introduced)
    (hpl : allPlain vs = true) :
    roundTrip vs = vs := by
  cases vs with
  | nil => rfl
  | cons e rest =>
      have hopen : isOpenMode (e :: rest) = false := by
        simpa [isOpenMode] using hend
      simp only [allPlain, List.all_cons, Bool.and_eq_true] at hpl
      obtain ⟨hpe, hprest⟩ := hpl
      have hend' : lastKind rest ≠ some EventKind.introduced := by
        cases rest with
        | nil => simp [lastKind]
        | cons x xs => exact hend
      cases hk : e.kind with
      | introduced =>
          have halt' : alternatesFrom EventKind.introduced (e :: rest) = true := by
            simpa [alternating, hk] using halt
          simp only [roundTrip, versionsToVersionRanges, hopen, hk, if_true,
            Bool.false_eq_true, if_false, reduceIte]
          exact decodePairs_closed _ (e :: rest) halt' hend
            (by simp [allPlain, List.all_cons, hpe, hprest])
      | fixed =>
          have halt' : alternatesFrom EventKind.introduced rest = true := by
            simp only [alternating, alternatesFrom, hk, Bool.and_eq_true,
              decide_eq_true_eq, EventKind.other] at halt
            exact halt.2
          have hlead : (toVersions
              (some ⟨genesis, e.version, VersionStatus.affected, typeSemver⟩)
              VersionStatus.unaffected).1 = [Fixed e.version] := by
            rw [toVersions_genesis e.version _ _ _ hpe]
          have ih := decodePairs_closed VersionStatus.unaffected rest halt' hend' hprest
          obtain ⟨k, v⟩ := e
          simp only at hk
          subst hk
          simp [roundTrip, versionsToVersionRanges, hopen, hlead, Fixed, ih]

/-- Claim C1 (witness): the amended round trip at the repository's basic
closed test timeline. -/
theorem roundTrip_closed_witness :
    alternating
      [Introduced (str "1.0.0"), Fixed (str "1.0.1"),
       Introduced (str "1.2.0"), Fixed (str "1.2.3")] = true ∧
    lastKind
      [Introduced (str "1.0.0"), Fixed (str "1.0.1"),
       Introduced (str "1.2.0"), Fixed (str "1.2.3")] ≠ some EventKind.introduced ∧
    allPlain
      [Introduced (str "1.0.0"), Fixed (str "1.0.1"),
       Introduced (str "1.2.0"), Fixed (str "1.2.3")] = true ∧
    roundTrip
      [Introduced (str "1.0.0"), Fixed (str "1.0.1"),
       Introduced (str "1.2.0"), Fixed (str "1.2.3")] =
      [Introduced (str "1.0.0"), Fixed (str "1.0.1"),
       Introduced (str "1.2.0"), Fixed (str "1.2.3")] :=
  ⟨by decide, by decide, by decide,
    roundTrip_closed _ (by decide) (by decide) (by decide)⟩

/-- Claim C2: a non-empty alternating timeline that begins with an Introduced
event and ends with a Fixed event becomes, in order, one Affected range per
consecutive pair of events, with default status Unaffected. -/
theorem closed_alternating_ranges (vs : List VersionEvent)
    (h1 : alternatesFrom EventKind.introduced vs = true)
    (h2 : lastKind vs = some EventKind.fixed) :
    versionsToVersionRanges vs =
      ((consecutivePairs vs).map
        (fun p => ⟨p.1.version, p.2.version, VersionStatus.affected, typeSemver⟩),
       VersionStatus.unaffected) := by
  cases vs with
  | nil => simp [lastKind] at h2
  | cons e rest =>
      have hk : e.kind = EventKind.introduced := by
        simp only [alternatesFrom, Bool.and_eq_true, decide_eq_true_eq] at h1
        exact h1.1
      have hopen : isOpenMode (e :: rest) = false := by
        simp [isOpenMode, h2]
      simp [versionsToVersionRanges, hopen, hk, pairRanges_eq_map]

/-- Claim C2 (witness): the pairing at the repository's basic test timeline. -/
theorem closed_alternating_ranges_witness :
    alternatesFrom EventKind.introduced
      [Introduced (str "1.0.0"), Fixed (str "1.0.1"),
       Introduced (str "1.2.0"), Fixed (str "1.2.3")] = true ∧
    lastKind
      [Introduced (str "1.0.0"), Fixed (str "1.0.1"),
       Introduced (str "1.2.0"), Fixed (str "1.2.3")] = some EventKind.fixed ∧
    versionsToVersionRanges
      [Introduced (str "1.0.0"), Fixed (str "1.0.1"),
       Introduced (str "1.2.0"), Fixed (str "1.2.3")] =
      ([⟨str "1.0.0", str "1.0.1", .affected, typeSemver⟩,
        ⟨str "1.2.0", str "1.2.3", .affected, typeSemver⟩], .unaffected) :=
  ⟨by decide, by decide,
    (closed_alternating_ranges _ (by decide) (by decide)).trans (by decide)⟩

/-- Claim C3: a non-empty alternating timeline that begins with a Fixed event
and ends with an Introduced event becomes, in order, one Unaffected range per
consecutive pair of events, with default status Affected, and no range beyond
those pairs. -/
theorem open_alternating_ranges (vs : List VersionEvent)
    (h1 : alternatesFrom EventKind.fixed vs = true)
    (h2 : lastKind vs = some EventKind.introduced) :
    versionsToVersionRanges vs =
      ((consecutivePairs vs).map
        (fun p => ⟨p.1.version, p.2.version, VersionStatus.unaffected, typeSemver⟩),
       VersionStatus.affected) := by
  cases vs with
  | nil => simp [lastKind] at h2
  | cons e rest =>
      have hk : e.kind = EventKind.fixed := by
        simp only [alternatesFrom, Bool.and_eq_true, decide_eq_true_eq] at h1
        exact h1.1
      have hopen : isOpenMode (e :: rest) = true := by
        simp [isOpenMode, h2]
      simp [versionsToVersionRanges, hopen, hk, pairRanges_eq_map]

/-- Claim C3 (witness): the pairing at the repository's test timeline named no
initial introduced and no final fix. -/
theorem open_alternating_ranges_witness :
    alternatesFrom EventKind.fixed
      [Fixed (str "1.0.3"), Introduced (str "1.0.5"),
       Fixed (str "1.0.7"), Introduced (str "1.1.0")] = true ∧
    lastKind
      [Fixed (str "1.0.3"), Introduced (str "1.0.5"),
       Fixed (str "1.0.7"), Introduced (str "1.1.0")] = some EventKind.introduced ∧
    versionsToVersionRanges
      [Fixed (str "1.0.3"), Introduced (str "1.0.5"),
       Fixed (str "1.0.7"), Introduced (str "1.1.0")] =
      ([⟨str "1.0.3", str "1.0.5", .unaffected, typeSemver⟩,
        ⟨str "1.0.7", str "1.1.0", .unaffected, typeSemver⟩], .affected) :=
  ⟨by decide, by decide,
    (open_alternating_ranges _ (by decide) (by decide)).trans (by decide)⟩

/-- Claim C4: when the first event's kind does not match the mode's expected
start (Closed mode expects Introduced, Open mode expects Fixed), the output is
exactly one synthesized leading range from the sentinel genesis version to the
first event's version, with status Affected in Closed mode and Unaffected in
Open mode, followed by the pairwise ranges of the remaining events. -/
theorem leading_boundary_range (e : VersionEvent) (rest : List VersionEvent)
    (h : e.kind ≠
      (if isOpenMode (e :: rest) then EventKind.fixed else EventKind.introduced)) :
    (versionsToVersionRanges (e :: rest)).1 =
      ⟨genesis, e.version,
        (if isOpenMode (e :: rest) then VersionStatus.unaffected
          else VersionStatus.affected), typeSemver⟩ ::
      (consecutivePairs rest).map
        (fun p => ⟨p.1.version, p.2.version,
          (if isOpenMode (e :: rest) then VersionStatus.unaffected
            else VersionStatus.affected), typeSemver⟩) := by
  cases hm : isOpenMode (e :: rest) with
  | true =>
      rw [hm] at h
      simp only [if_true] at h
      simp [versionsToVersionRanges, hm, h, pairRanges_eq_map]
  | false =>
      rw [hm] at h
      simp only [Bool.false_eq_true, if_false] at h
      simp [versionsToVersionRanges, hm, h, pairRanges_eq_map]

/-- Claim C4 (witness): the synthesized leading range at the repository's test
timeline named no initial introduced. -/
theorem leading_boundary_range_witness :
    (Fixed (str "1.0.1")).kind ≠
      (if isOpenMode
          [Fixed (str "1.0.1"), Introduced (str "1.2.0"), Fixed (str "1.2.3")]
        then EventKind.fixed else EventKind.introduced) ∧
    (versionsToVersionRanges
      [Fixed (str "1.0.1"), Introduced (str "1.2.0"), Fixed (str "1.2.3")]).1 =
      [⟨str "0", str "1.0.1", .affected, typeSemver⟩,
       ⟨str "1.2.0", str "1.2.3", .affected, typeSemver⟩] :=
  ⟨by decide,
    (leading_boundary_range (Fixed (str "1.0.1"))
      [Introduced (str "1.2.0"), Fixed (str "1.2.3")] (by decide)).trans (by decide)⟩

/-- Claim C5 (counterexample): on the empty event sequence the converter
returns default status Affected, not Unaffected. -/
theorem empty_default_not_unaffected :
    (versionsToVersionRanges []).2 ≠ VersionStatus.unaffected := by decide

/-- Claim C5 (amended): when the input event sequence is empty, the converter
returns no ranges and default status Affected (the empty case returns before
any mode is chosen). -/
theorem empty_returns_affected :
    versionsToVersionRanges [] = ([], VersionStatus.affected) := by decide

/-- Claim C6: the converter maps the empty timeline to no ranges with default
Affected, and the decoder maps a nil range, or a range with both bounds empty,
to the empty event sequence with success, for any default status. -/
theorem empty_inputs_behavior :
    versionsToVersionRanges [] = ([], VersionStatus.affected) ∧
    (∀ d : VersionStatus, toVersions none d = ([], true)) ∧
    (∀ (d st : VersionStatus) (t : Str), toVersions (some ⟨[], [], st, t⟩) d = ([], true)) :=
  ⟨rfl, fun _ => rfl, fun _ _ _ => rfl⟩

/-- Claim C7: when the introduced field holds a two-sided constraint
expression combining a lower bound A and an upper bound B (with A free of
commas, so the expression is unambiguous), the decoder emits exactly
Introduced A followed by Fixed B, ignores the separate fixed field, and
succeeds. -/
theorem toVersions_twoSided (a b f t : Str) (st d : VersionStatus)
    (h : a.all (fun c => decide (c ≠ ',')) = true) :
    toVersions
      (some ⟨['>', '=', ' '] ++ (a ++ ',' :: ([' ', '<', ' '] ++ b)), f, st, t⟩) d =
      ([Introduced a, Fixed b], true) := by
  have hc : parseConstraint
      (trimV ('>' :: '=' :: ' ' :: (a ++ ',' :: ' ' :: '<' :: ' ' :: b))) =
      some (some a, b) := by
    have hs : splitAtComma (a ++ ',' :: ' ' :: '<' :: ' ' :: b) =
        some (a, ' ' :: '<' :: ' ' :: b) :=
      splitAtComma_append a (' ' :: '<' :: ' ' :: b) h
    simp [trimV, parseConstraint, dropPre, hs]
  simp [toVersions, hc]

/-- Claim C7 (witness): the two-sided decode at the repository's test vector,
with a non-empty separate fixed field that is ignored. -/
theorem toVersions_twoSided_witness :
    (str "1.0.0").all (fun c => decide (c ≠ ',')) = true ∧
    toVersions
      (some ⟨['>', '=', ' '] ++ (str "1.0.0" ++ ',' :: ([' ', '<', ' '] ++ str "1.0.1")),
        str "9.9.9", .affected, typeSemver⟩) .unaffected =
      ([Introduced (str "1.0.0"), Fixed (str "1.0.1")], true) :=
  ⟨by decide,
    toVersions_twoSided (str "1.0.0") (str "1.0.1") (str "9.9.9") typeSemver
      .affected .unaffected (by decide)⟩

/-- Claim C8: when the introduced field holds a one-sided upper-only
constraint expression with bound B, the decoder emits exactly one event,
Fixed B, with no Introduced event, and succeeds, whatever the separate fixed
field, status and default status. -/
theorem toVersions_upperOnly (b f t : Str) (st d : VersionStatus) :
    toVersions (some ⟨['<', ' '] ++ b, f, st, t⟩) d = ([Fixed b], true) := by
  simp [toVersions, trimV, parseConstraint, dropPre]

/-- Claim C9 (counterexample): a range whose bounds carry a doubled letter v
does not behave the same as the range with one v stripped, because the decoder
strips only one leading v. -/
theorem toVersions_double_v_differs :
    toVersions (some ⟨str "vv1.0.0", str "vv1.0.1", .affected, typeSemver⟩) .unaffected ≠
    toVersions (some ⟨str "v1.0.0", str "v1.0.1", .affected, typeSemver⟩) .unaffected := by
  decide

/-- Claim C9 (amended): for every range whose introduced and fixed values
carry a leading letter v, and whose underlying values do not themselves begin
with another letter v, the decoder returns the same events and success flag as
on the range with the v prefixes stripped. -/
theorem toVersions_vStrip (i f : Str) (st : VersionStatus) (t : Str) (d : VersionStatus)
    (hi : noLeadV i = true) (hf : noLeadV f = true) :
    toVersions (some ⟨'v' :: i, 'v' :: f, st, t⟩) d =
      toVersions (some ⟨i, f, st, t⟩) d := by
  have hti : trimV i = i := trimV_of_noLeadV i hi
  have htf : trimV f = f := trimV_of_noLeadV f hf
  by_cases h0 : i = [] ∧ f = []
  · obtain ⟨h1, h2⟩ := h0
    subst h1
    subst h2
    rfl
  · have hv : ∀ s : Str, trimV ('v' :: s) = s := fun s => by simp [trimV]
    simp [toVersions, hv, hti, htf, h0]

/-- Claim C9 (witness): equality of the decoded events at the repository's
test vector named v prefix ok. -/
theorem toVersions_vStrip_witness :
    noLeadV (str "1.0.0") = true ∧ noLeadV (str "1.0.1") = true ∧
    toVersions (some ⟨'v' :: str "1.0.0", 'v' :: str "1.0.1", .affected, typeSemver⟩)
        .unaffected =
      toVersions (some ⟨str "1.0.0", str "1.0.1", .affected, typeSemver⟩) .unaffected :=
  ⟨by decide, by decide,
    toVersions_vStrip (str "1.0.0") (str "1.0.1") .affected typeSemver .unaffected
      (by decide) (by decide)⟩

/-- The pairwise walk yields only well-formed ranges when the event versions
are non-empty. -/
theorem pairRanges_wellFormed (st : VersionStatus) :
    ∀ l : List VersionEvent, l.all (fun e => decide (e.version ≠ [])) = true →
      rangesWellFormed (pairRanges st l) = true
  | [], _ => rfl
  | [_], _ => rfl
  | e1 :: e2 :: rest, h => by
      simp only [List.all_cons, Bool.and_eq_true] at h
      obtain ⟨h1, h2, h3⟩ := h
      simp only [decide_eq_true_eq] at h1 h2
      have ih := pairRanges_wellFormed st rest h3
      simp only [pairRanges, rangesWellFormed, List.all_cons, Bool.and_eq_true,
        decide_eq_true_eq]
      exact ⟨⟨⟨h1, h2⟩, trivial⟩, ih⟩

/-- Claim C10: for every timeline whose event versions are non-empty, every
range returned by the converter has a non-empty introduced field and a
non-empty fixed field and carries the semver version type; no open-ended
range is ever emitted. -/
theorem ranges_wellFormed_semver (vs : List VersionEvent)
    (h : vs.all (fun e => decide (e.version ≠ [])) = true) :
    rangesWellFormed (versionsToVersionRanges vs).1 = true := by
  cases vs with
  | nil => rfl
  | cons e rest =>
      have he : decide (e.version ≠ []) = true := by
        simp only [List.all_cons, Bool.and_eq_true] at h
        exact h.1
      have hr : rest.all (fun e => decide (e.version ≠ [])) = true := by
        simp only [List.all_cons, Bool.and_eq_true] at h
        exact h.2
      have hg : decide (genesis ≠ ([] : Str)) = true := by decide
      cases hm : isOpenMode (e :: rest) with
      | true =>
          cases hk : decide (e.kind = EventKind.fixed) with
          | true =>
              simp only [decide_eq_true_eq] at hk
              simp only [versionsToVersionRanges, hm, hk, if_true, reduceIte]
              exact pairRanges_wellFormed _ (e :: rest) h
          | false =>
              simp only [decide_eq_false_iff_not] at hk
              have he' : e.version ≠ [] := by simpa using he
              simp only [versionsToVersionRanges, hm, hk, if_true, reduceIte, if_false]
              simp only [rangesWellFormed, List.all_cons, Bool.and_eq_true,
                decide_eq_true_eq]
              exact ⟨⟨⟨by decide, he'⟩, trivial⟩,
                pairRanges_wellFormed VersionStatus.unaffected rest hr⟩
      | false =>
          cases hk : decide (e.kind = EventKind.introduced) with
          | true =>
              simp only [decide_eq_true_eq] at hk
              simp only [versionsToVersionRanges, hm, hk, Bool.false_eq_true,
                if_false, if_true, reduceIte]
              exact pairRanges_wellFormed _ (e :: rest) h
          | false =>
              simp only [decide_eq_false_iff_not] at hk
              have he' : e.version ≠ [] := by simpa using he
              simp only [versionsToVersionRanges, hm, hk, Bool.false_eq_true,
                if_false, reduceIte]
              simp only [rangesWellFormed, List.all_cons, Bool.and_eq_true,
                decide_eq_true_eq]
              exact ⟨⟨⟨by decide, he'⟩, trivial⟩,
                pairRanges_wellFormed VersionStatus.affected rest hr⟩

/-- Claim C10 (witness): well-formed ranges at the repository's test timeline
named no final fix, whose output includes a synthesized leading range. -/
theorem ranges_wellFormed_semver_witness :
    ([Introduced (str "1.0.0"), Fixed (str "1.0.3"),
      Introduced (str "1.1.0")].all (fun e => decide (e.version ≠ []))) = true ∧
    rangesWellFormed
      (versionsToVersionRanges
        [Introduced (str "1.0.0"), Fixed (str "1.0.3"),
         Introduced (str "1.1.0")]).1 = true :=
  ⟨by decide, ranges_wellFormed_semver _ (by decide)⟩
